import Mathlib

/-!
Verification of the Recall MemoryEngine (services/MemoryEngine.ts)

Shallow embedding of the engine search scoring, search coordination,
model lifecycle and batch-indexing pipeline.  JavaScript numbers are
idealized as real numbers (`ℝ`, with `Math.sqrt` as `Real.sqrt`), so the
scoring definitions are `noncomputable`; JavaScript strings are modelled
as their character sequences (`List Char`), so every string operation of
the source is executable and kernel-evaluable; all control-flow and state
definitions (pipeline, queue machine) are executable.
-/

namespace Recall

/-- JS strings, modelled as their character sequences. -/
abbrev Chars := List Char

/-- Model of `String.prototype.toLowerCase()` (character-wise case folding). -/
def toLowerChars (s : Chars) : Chars := s.map Char.toLower

/-- Model of `text.includes(pat)`: `pat` occurs contiguously in `text`.  Models the
JavaScript `String.prototype.includes` used in `keywordMatchScore`. -/
def containsChars (pat : Chars) : Chars → Bool
  | [] => pat.isEmpty
  | c :: rest => pat.isPrefixOf (c :: rest) || containsChars pat rest

/-- Model of `text.includes(pat)` with the receiver first, as in the source. -/
def strIncludes (text pat : Chars) : Bool :=
  containsChars pat text

/-- Helper for `split(/\s+/)`: accumulate the current piece (reversed) and cut
at every whitespace character.  Cutting at each whitespace character instead
of at maximal runs only adds empty pieces, which the length filter of
`queryWords` removes, exactly as the JS regex empty leading piece of the JS regex split is
removed there. -/
def splitWsAux : Chars → Chars → List Chars
  | cur, [] => [cur.reverse]
  | cur, c :: rest =>
    if c.isWhitespace then cur.reverse :: splitWsAux [] rest
    else splitWsAux (c :: cur) rest

/-- Model of `query.split(/\s+/)` (up to empty pieces, see `splitWsAux`). -/
def splitWs (s : Chars) : List Chars := splitWsAux [] s

/-- Model of `query.toLowerCase().split(/\s+/).filter(w => w.length > 2)`
(MemoryEngine.ts line 290). -/
def queryWords (query : Chars) : List Chars :=
  (splitWs (toLowerChars query)).filter (fun w => w.length > 2)

/-- Model of `String.prototype.trim()`: strip whitespace from both ends. -/
def trimChars (s : Chars) : Chars :=
  ((s.dropWhile Char.isWhitespace).reverse.dropWhile Char.isWhitespace).reverse

/-- Model of `keywordMatchScore` (MemoryEngine.ts lines 289-303): count matching query
words with a running counter, then divide by the token count. -/
noncomputable def keywordMatchScore (query text : Chars) : ℝ :=
  let qws := queryWords query
  let textLower := toLowerChars text
  if qws.length = 0 then 0
  else
    let matchCount := qws.foldl (fun n w => if strIncludes textLower w then n + 1 else n) (0 : Nat)
    (matchCount : ℝ) / (qws.length : ℝ)

/-- Model of `cosineSimilarity` (MemoryEngine.ts lines 271-286): one loop accumulating
the dot product and both squared norms, then `dot / (sqrt normA * sqrt normB)`
guarded by a length check and a zero-denominator check. -/
noncomputable def cosineSimilarity (a b : List ℝ) : ℝ :=
  if a.length ≠ b.length then 0
  else
    let sums := (a.zip b).foldl
      (fun acc p => (acc.1 + p.1 * p.2, acc.2.1 + p.1 * p.1, acc.2.2 + p.2 * p.2))
      ((0 : ℝ), (0 : ℝ), (0 : ℝ))
    let dotProduct := sums.1
    let normA := sums.2.1
    let normB := sums.2.2
    let denominator := Real.sqrt normA * Real.sqrt normB
    if denominator = 0 then 0 else dotProduct / denominator

/-- Union "image" | "pdf" (types/index.ts `FileType`). -/
inductive FileType where
  | image
  | pdf
deriving DecidableEq, Repr

/-- One row of the `files ⋈ file_vectors` join fetched by `executeSearch`
(the JSON-encoded vector is modelled already decoded, since
`jsonToVector ∘ vectorToJson` is the identity on the stored array). -/
structure FileRow where
  id : Nat
  uri : Chars
  filename : Chars
  file_type : FileType
  caption : Chars
  thumbnail : Option Chars
  created_at : Nat
  embedding : List ℝ

/-- Model of `SearchResult` (types/index.ts): a `FileRecord` plus distance/similarity. -/
structure SearchResult where
  id : Nat
  uri : Chars
  filename : Chars
  file_type : FileType
  caption : Chars
  thumbnail : Option Chars
  created_at : Nat
  distance : ℝ
  similarity : ℝ

/-- The body of `results.rows.map(...)` in `executeSearch`
(MemoryEngine.ts lines 1028-1055): hybrid score, display similarity,
distance. -/
noncomputable def scoreRow (query : Chars) (queryEmbedding : List ℝ) (row : FileRow) :
    SearchResult :=
  let fileEmbedding := row.embedding
  let semanticScore := cosineSimilarity queryEmbedding fileEmbedding
  let captionKeywordScore := keywordMatchScore query row.caption
  let filenameKeywordScore := keywordMatchScore query row.filename
  let keywordScore := max captionKeywordScore filenameKeywordScore
  let hybridScore := semanticScore * 0.6 + keywordScore * 0.4
  let displaySimilarity := min 1 (hybridScore * 1.5)
  { id := row.id
    uri := row.uri
    filename := row.filename
    file_type := row.file_type
    caption := row.caption
    thumbnail := row.thumbnail
    created_at := row.created_at
    distance := 1 - displaySimilarity
    similarity := displaySimilarity }

/-- The JS comparator `(a, b) => b.similarity - a.similarity` keeps `a` before
`b` exactly when the comparator is `≤ 0`, i.e. `b.similarity ≤ a.similarity`;
`Array.prototype.sort` is stable, so the sort step is a stable merge sort on
this relation. -/
noncomputable def simDescLE (a b : SearchResult) : Bool :=
  decide (b.similarity ≤ a.similarity)

/-- Model of `executeSearch` (MemoryEngine.ts lines 991-1069) after the query embedding
has been produced and the corpus fetched: score every row, sort descending by
similarity (stable), truncate to the result limit (`SEARCH_RESULTS_LIMIT`,
kept as a parameter since `config.ts` fixes only its numeric value). -/
noncomputable def executeSearch (query : Chars) (queryEmbedding : List ℝ)
    (rows : List FileRow) (limit : Nat) : List SearchResult :=
  let scored := rows.map (scoreRow query queryEmbedding)
  (scored.mergeSort simDescLE).take limit

/-- Model of `search` (MemoryEngine.ts line 956): blank queries short-circuit to `[]`
before any scoring; otherwise one `executeSearch` run.  (The single-flight
queueing around it is modelled separately as a state machine.) -/
noncomputable def searchModel (query : Chars) (queryEmbedding : List ℝ)
    (rows : List FileRow) (limit : Nat) : List SearchResult :=
  if (trimChars query).isEmpty then [] else executeSearch query queryEmbedding rows limit

/-! ## Claim-side (spec-worded) definitions for the hybrid score -/

/-- Spec wording of keyword-overlap: the fraction of the (case-folded,
whitespace-separated, length > 2) query tokens that occur as substrings of the
case-folded target text, `0` when there are no such tokens. -/
noncomputable def keywordOverlapSpec (query text : Chars) : ℝ :=
  let toks := queryWords query
  if toks = [] then 0
  else ((toks.filter (fun w => strIncludes (toLowerChars text) w)).length : ℝ)
    / (toks.length : ℝ)

/-- Spec wording of the semantic term: dot product over paired coordinates
divided by the product of Euclidean norms, `0` on dimension mismatch or zero
denominator. -/
noncomputable def cosineSpec (a b : List ℝ) : ℝ :=
  if a.length ≠ b.length then 0
  else
    let dot := ((a.zip b).map (fun p => p.1 * p.2)).sum
    let nA := Real.sqrt ((a.map (fun x => x * x)).sum)
    let nB := Real.sqrt ((b.map (fun x => x * x)).sum)
    if nA * nB = 0 then 0 else dot / (nA * nB)

/-! ## Lemmas relating the loop-style code translations to the spec forms -/

theorem foldl_count_eq_filter_length {α : Type} (p : α → Bool) (l : List α) (n : Nat) :
    l.foldl (fun n w => if p w then n + 1 else n) n = n + (l.filter p).length := by
  induction l generalizing n with
  | nil => simp
  | cons w ws ih =>
    by_cases h : p w
    · simp [List.foldl_cons, h, ih, Nat.add_assoc, Nat.add_comm 1]
    · simp [List.foldl_cons, h, ih]

theorem keywordMatchScore_eq_spec (query text : Chars) :
    keywordMatchScore query text = keywordOverlapSpec query text := by
  unfold keywordMatchScore keywordOverlapSpec
  simp only [foldl_count_eq_filter_length, Nat.zero_add, List.length_eq_zero]

theorem cosine_foldl_sums (l : List (ℝ × ℝ)) (d n m : ℝ) :
    l.foldl (fun acc p => (acc.1 + p.1 * p.2, acc.2.1 + p.1 * p.1, acc.2.2 + p.2 * p.2))
        (d, n, m)
      = (d + (l.map (fun p => p.1 * p.2)).sum,
         n + (l.map (fun p => p.1 * p.1)).sum,
         m + (l.map (fun p => p.2 * p.2)).sum) := by
  induction l generalizing d n m with
  | nil => simp
  | cons p ps ih => simp [List.foldl_cons, ih]; ring_nf; simp [add_assoc]

theorem zip_map_fst_sq (a b : List ℝ) (h : a.length = b.length) :
    ((a.zip b).map (fun p => p.1 * p.1)).sum = (a.map (fun x => x * x)).sum := by
  induction a generalizing b with
  | nil => simp
  | cons x xs ih =>
    cases b with
    | nil => simp at h
    | cons y ys =>
      simp only [List.zip_cons_cons, List.map_cons, List.sum_cons]
      rw [ih ys (by simpa using h)]

theorem zip_map_snd_sq (a b : List ℝ) (h : a.length = b.length) :
    ((a.zip b).map (fun p => p.2 * p.2)).sum = (b.map (fun x => x * x)).sum := by
  induction a generalizing b with
  | nil => cases b with
    | nil => simp
    | cons y ys => simp at h
  | cons x xs ih =>
    cases b with
    | nil => simp at h
    | cons y ys =>
      simp only [List.zip_cons_cons, List.map_cons, List.sum_cons]
      rw [ih ys (by simpa using h)]

theorem cosineSimilarity_eq_spec (a b : List ℝ) :
    cosineSimilarity a b = cosineSpec a b := by
  unfold cosineSimilarity cosineSpec
  by_cases h : a.length = b.length
  · simp only [h, ne_eq, not_true_eq_false, if_false]
    rw [cosine_foldl_sums]
    simp only [zero_add]
    rw [zip_map_fst_sq a b h, zip_map_snd_sq a b h]
  · simp [h]

theorem simDescLE_trans (a b c : SearchResult) :
    simDescLE a b → simDescLE b c → simDescLE a c := by
  intro h1 h2
  exact decide_eq_true (le_trans (of_decide_eq_true h2) (of_decide_eq_true h1))

theorem simDescLE_total (a b : SearchResult) : simDescLE a b || simDescLE b a := by
  unfold simDescLE
  rcases le_total b.similarity a.similarity with h | h
  · simp [h]
  · simp [h]

/-- C1: for every stored row scored by `search`, the semantic term is the
cosine similarity of query and row embedding (exactly 0 on dimension
mismatch), the keyword term is the larger keyword-overlap against caption and
filename, keyword-overlap is the fraction of case-folded whitespace tokens of
length > 2 occurring as substrings of the case-folded target (0 with no such
tokens), hybrid = 0.6·semantic + 0.4·keyword, similarity = min(1, 1.5·hybrid),
distance = 1 − similarity. -/
theorem claim1_hybrid_score_formula (query : Chars) (qe : List ℝ) (row : FileRow) :
    (scoreRow query qe row).similarity
        = min 1 (1.5 * (0.6 * cosineSpec qe row.embedding
            + 0.4 * max (keywordOverlapSpec query row.caption)
                (keywordOverlapSpec query row.filename)))
      ∧ (qe.length ≠ row.embedding.length → cosineSimilarity qe row.embedding = 0)
      ∧ (∀ t, keywordMatchScore query t = keywordOverlapSpec query t)
      ∧ (queryWords query = [] → ∀ t, keywordMatchScore query t = 0)
      ∧ (scoreRow query qe row).distance = 1 - (scoreRow query qe row).similarity := by
  refine ⟨?_, ?_, ?_, ?_, ?_⟩
  · simp only [scoreRow, keywordMatchScore_eq_spec, cosineSimilarity_eq_spec]
    congr 1
    ring
  · intro h
    simp [cosineSimilarity, h]
  · intro t
    exact keywordMatchScore_eq_spec query t
  · intro h t
    simp [keywordMatchScore, h]
  · rfl

theorem claim1_hybrid_score_formula_witness :
    cosineSimilarity [(1 : ℝ)] [1, 2] = 0
      ∧ keywordMatchScore "ab".toList "cabbage".toList = 0
      ∧ (scoreRow "cat".toList [(1 : ℝ)]
            ⟨1, "u".toList, "cat.jpg".toList, FileType.image, "a cat".toList, none, 0,
              [(1 : ℝ)]⟩).distance
          = 1 - (scoreRow "cat".toList [(1 : ℝ)]
            ⟨1, "u".toList, "cat.jpg".toList, FileType.image, "a cat".toList, none, 0,
              [(1 : ℝ)]⟩).similarity := by
  refine ⟨?_, ?_, ?_⟩
  · exact (claim1_hybrid_score_formula "x".toList [(1 : ℝ)]
      ⟨1, "u".toList, "f".toList, FileType.image, "c".toList, none, 0, [1, 2]⟩).2.1
      (by decide)
  · exact (claim1_hybrid_score_formula "ab".toList [(1 : ℝ)]
      ⟨1, "u".toList, "f".toList, FileType.image, "c".toList, none, 0, [1]⟩).2.2.2.1
      (by decide) "cabbage".toList
  · exact (claim1_hybrid_score_formula "cat".toList [(1 : ℝ)]
      ⟨1, "u".toList, "cat.jpg".toList, FileType.image, "a cat".toList, none, 0,
        [(1 : ℝ)]⟩).2.2.2.2

/-- C2: for every non-blank query the search returns at most `limit` results,
pairwise ordered by non-increasing similarity, and within every class of tied
similarities the output order is a subsequence of (hence preserves) the
original scored row order — the sort is stable. -/
theorem claim2_topk_sorted_stable (query : Chars) (qe : List ℝ) (rows : List FileRow)
    (limit : Nat) (hq : (trimChars query).isEmpty = false) :
    (searchModel query qe rows limit).length ≤ limit
      ∧ (searchModel query qe rows limit).Pairwise
          (fun a b => b.similarity ≤ a.similarity)
      ∧ ∀ s : ℝ,
          List.Sublist
            ((searchModel query qe rows limit).filter (fun r => decide (r.similarity = s)))
            ((rows.map (scoreRow query qe)).filter (fun r => decide (r.similarity = s))) := by
  have hsm : searchModel query qe rows limit
      = ((rows.map (scoreRow query qe)).mergeSort simDescLE).take limit := by
    simp [searchModel, executeSearch, hq]
  refine ⟨?_, ?_, ?_⟩
  · rw [hsm]
    exact (List.length_take _ _).trans_le (Nat.min_le_left _ _)
  · rw [hsm]
    have hs := List.sorted_mergeSort simDescLE_trans simDescLE_total
      (rows.map (scoreRow query qe))
    exact ((hs.sublist (List.take_sublist _ _)).imp fun h => of_decide_eq_true h)
  · intro s
    rw [hsm]
    have hAmem : ∀ r ∈ (rows.map (scoreRow query qe)).filter
        (fun r => decide (r.similarity = s)), r.similarity = s := by
      intro r hr
      exact of_decide_eq_true (List.mem_filter.mp hr).2
    have hApair : ((rows.map (scoreRow query qe)).filter
        (fun r => decide (r.similarity = s))).Pairwise (fun a b => simDescLE a b = true) := by
      apply List.pairwise_of_forall_mem_list
      intro a ha b hb
      exact decide_eq_true (le_of_eq ((hAmem b hb).trans (hAmem a ha).symm))
    have hAsub := List.sublist_mergeSort simDescLE_trans simDescLE_total hApair
      (List.filter_sublist (rows.map (scoreRow query qe)))
    have hAfB := hAsub.filter (fun r => decide (r.similarity = s))
    rw [List.filter_filter] at hAfB
    have hidem : (fun (r : SearchResult) =>
        decide (r.similarity = s) && decide (r.similarity = s))
        = fun r => decide (r.similarity = s) := by
      funext r
      cases decide (r.similarity = s) <;> rfl
    rw [hidem] at hAfB
    have hperm := (List.mergeSort_perm (rows.map (scoreRow query qe)) simDescLE).filter
      (fun r => decide (r.similarity = s))
    have hBA : ((rows.map (scoreRow query qe)).mergeSort simDescLE).filter
          (fun r => decide (r.similarity = s))
        = (rows.map (scoreRow query qe)).filter (fun r => decide (r.similarity = s)) :=
      (hAfB.eq_of_length hperm.length_eq.symm).symm
    have h1 := (List.take_sublist limit
      ((rows.map (scoreRow query qe)).mergeSort simDescLE)).filter
      (fun r => decide (r.similarity = s))
    rw [hBA] at h1
    exact h1

theorem claim2_topk_sorted_stable_witness :
    (trimChars "cat".toList).isEmpty = false
      ∧ (searchModel "cat".toList [(1 : ℝ)] [] 5).length ≤ 5
      ∧ (searchModel "cat".toList [(1 : ℝ)] [] 5).Pairwise
          (fun a b => b.similarity ≤ a.similarity)
      ∧ List.Sublist
          ((searchModel "cat".toList [(1 : ℝ)] [] 5).filter
            (fun r => decide (r.similarity = 0)))
          ((List.map (scoreRow "cat".toList [(1 : ℝ)]) []).filter
            (fun r => decide (r.similarity = 0))) := by
  have h := claim2_topk_sorted_stable "cat".toList [(1 : ℝ)] [] 5 (by decide)
  exact ⟨by decide, h.1, h.2.1, h.2.2 0⟩

/-- C9 counterexample: with query "zz" (no keyword tokens), query embedding
`[1]` and a stored row with embedding `[-1]`, the single returned result has
similarity `-0.9 ∉ [0,1]` (and distance `1.9`): the claimed bounds are false. -/
theorem claim9_counterexample :
    (searchModel ['z', 'z'] [(1 : ℝ)]
        [⟨1, ['u'], ['f'], FileType.image, ['c'], none, 0, [(-1 : ℝ)]⟩] 10).map
        (fun r => r.similarity) = [(-0.9 : ℝ)]
      ∧ ¬(0 : ℝ) ≤ (-0.9 : ℝ) := by
  constructor
  · have hq : queryWords ['z', 'z'] = ([] : List Chars) := by decide
    have htrim : (trimChars ['z', 'z']).isEmpty = false := by decide
    have hscore : (scoreRow ['z', 'z'] [(1 : ℝ)]
        ⟨1, ['u'], ['f'], FileType.image, ['c'], none, 0, [(-1 : ℝ)]⟩).similarity
        = (-0.9 : ℝ) := by
      simp only [scoreRow, cosineSimilarity, keywordMatchScore, hq,
        List.length_cons, List.length_nil, List.zip_cons_cons, List.zip_nil_right,
        List.foldl_cons, List.foldl_nil]
      norm_num [Real.sqrt_one]
    simp only [searchModel, htrim, Bool.false_eq_true, if_false,
      executeSearch, List.map_cons, List.map_nil, List.mergeSort_singleton]
    simp [hscore]
  · norm_num

/-- C9 amended: every returned result satisfies similarity ≤ 1 and
distance = 1 − similarity; the claimed lower bound 0 does not hold in general
since the cosine term can be negative. -/
theorem claim9_amended (query : Chars) (qe : List ℝ) (rows : List FileRow)
    (limit : Nat) (r : SearchResult) (hr : r ∈ searchModel query qe rows limit) :
    r.similarity ≤ 1 ∧ r.distance = 1 - r.similarity := by
  by_cases hq : (trimChars query).isEmpty = true
  · simp [searchModel, hq] at hr
  · have hr2 : r ∈ (rows.map (scoreRow query qe)).mergeSort simDescLE := by
      have hsm : searchModel query qe rows limit
          = ((rows.map (scoreRow query qe)).mergeSort simDescLE).take limit := by
        simp [searchModel, executeSearch, hq]
      rw [hsm] at hr
      exact List.mem_of_mem_take hr
    rw [List.mem_mergeSort] at hr2
    obtain ⟨row, _, hrow⟩ := List.mem_map.mp hr2
    subst hrow
    exact ⟨min_le_left _ _, rfl⟩

theorem claim9_amended_witness :
    (scoreRow "cat".toList [(1 : ℝ)]
        ⟨1, "u".toList, "f".toList, FileType.image, "c".toList, none, 0,
          [(1 : ℝ)]⟩).similarity ≤ 1
      ∧ (scoreRow "cat".toList [(1 : ℝ)]
          ⟨1, "u".toList, "f".toList, FileType.image, "c".toList, none, 0,
            [(1 : ℝ)]⟩).distance
        = 1 - (scoreRow "cat".toList [(1 : ℝ)]
          ⟨1, "u".toList, "f".toList, FileType.image, "c".toList, none, 0,
            [(1 : ℝ)]⟩).similarity := by
  apply claim9_amended "cat".toList [(1 : ℝ)]
    [⟨1, "u".toList, "f".toList, FileType.image, "c".toList, none, 0, [(1 : ℝ)]⟩] 10
  have htrim : ¬trimChars ['c', 'a', 't'] = [] := by decide
  simp [searchModel, executeSearch, htrim, List.take]

/-! ## Batch indexing pipeline (`indexFiles`, MemoryEngine.ts lines 697-898)

The pipeline is a sequential async task; its `await` points never interleave
with itself (a second `indexFiles` during a run is caller-level misuse, out
of scope), so it is modelled as a pure state transformer.  External
capability results are supplied by an environment; model download and `init`
are modelled as succeeding, since no claim concerns load failure.  Progress
message strings and timestamps are elided (`[]` / `0`): no claim mentions
them, only phases and counters.  Cooldown delays only pause the task. -/

/-- Model of `ProcessingPhase` (types/index.ts). -/
inductive ProcessingPhase where
  | idle
  | selecting
  | loading_vision
  | captioning
  | unloading_vision
  | loading_embedding
  | embedding
  | saving
  | complete
  | error
deriving DecidableEq, Repr

/-- Model of `ProcessingProgress` (types/index.ts). -/
structure ProcessingProgress where
  phase : ProcessingPhase
  current : Nat
  total : Nat
  message : Chars
  percentage : Nat
deriving DecidableEq, Repr

/-- Model of `reportProgress` (lines 394-410): percentage is
`Math.round(100·current/total)` when `total > 0`, else `0`; JS `Math.round x`
is `⌊x + 1/2⌋`, i.e. `(200·current + total) / (2·total)` in `Nat` division. -/
def mkProgress (phase : ProcessingPhase) (current total : Nat) : ProcessingProgress :=
  { phase := phase
    current := current
    total := total
    message := []
    percentage := if 0 < total then (200 * current + total) / (2 * total) else 0 }

/-- Model of `SelectedFile` (types/index.ts). -/
structure SelectedFile where
  uri : Chars
  name : Chars
  type : FileType
  mimeType : Chars
  size : Nat

/-- Model of `CaptionedFile` (types/index.ts). -/
structure CaptionedFile where
  file : SelectedFile
  caption : Chars
  thumbnail : Option Chars

/-- Model of `EmbeddedFile` (types/index.ts). -/
structure EmbeddedFile where
  file : SelectedFile
  caption : Chars
  thumbnail : Option Chars
  embedding : List ℝ

/-- The `MemoryEngine` fields the pipeline touches, plus instrumentation:
every emitted progress report, and a snapshot of the model-residency pair
`(visionModel ≠ null, embeddingModel ≠ null)` after each completed
load/unload operation. -/
structure EngineState where
  visionModel : Bool
  embeddingModel : Bool
  db : List FileRow
  reports : List ProcessingProgress
  mtrace : List (Bool × Bool)

/-- External capability outcomes for one `indexFiles` run: the vision
`complete` call per image index, `extractPdfText` per document index (its
catch turns failures into `""`, never a throw), the `embed` call per
captioned-item index, the `USE_VISION_MODEL` configuration flag, and the
download-progress percent sequences relayed by the two model loads. -/
structure IndexEnv where
  useVision : Bool
  captionOutcome : Nat → Except Chars Chars
  pdfText : Nat → Chars
  embedOutcome : Nat → Except Chars (List ℝ)
  visionDl : List Nat
  embedDl : List Nat

/-- Model of `loadVisionModel` (lines 433-493): report `loading_vision` start, relay
download progress, report completion after `init`; the handle is set. -/
def loadVisionModelM (env : IndexEnv) (st : EngineState) : EngineState :=
  { st with
    visionModel := true
    reports := st.reports ++ [mkProgress .loading_vision 0 1]
      ++ env.visionDl.map (fun p => mkProgress .loading_vision p 100)
      ++ [mkProgress .loading_vision 1 1]
    mtrace := st.mtrace ++ [(true, st.embeddingModel)] }

/-- Model of `unloadVisionModel` (lines 498-510): a no-op when the handle is unset;
otherwise destroy, clear, cooldown, with `unloading_vision` reports. -/
def unloadVisionModelM (st : EngineState) : EngineState :=
  if st.visionModel then
    { st with
      visionModel := false
      reports := st.reports
        ++ [mkProgress .unloading_vision 0 1, mkProgress .unloading_vision 1 1]
      mtrace := st.mtrace ++ [(false, st.embeddingModel)] }
  else st

/-- Model of `loadEmbeddingModel` (lines 516-569) along the sequential pipeline:
an immediate return when the handle is already set, otherwise download,
`init` and set the handle, reporting `loading_embedding` progress.  Its
behaviour under overlapping calls is modelled separately
(`loadEmbedCallBehavior`). -/
def loadEmbeddingModelM (env : IndexEnv) (st : EngineState) : EngineState :=
  if st.embeddingModel then st
  else
    { st with
      embeddingModel := true
      reports := st.reports ++ [mkProgress .loading_embedding 0 1]
        ++ env.embedDl.map (fun p => mkProgress .loading_embedding p 100)
        ++ [mkProgress .loading_embedding 1 1]
      mtrace := st.mtrace ++ [(st.visionModel, true)] }

/-- Model of `unloadEmbeddingModel` (lines 574-580): destroy and clear when set;
no reports. -/
def unloadEmbeddingModelM (st : EngineState) : EngineState :=
  if st.embeddingModel then
    { st with
      embeddingModel := false
      mtrace := st.mtrace ++ [(st.visionModel, false)] }
  else st

/-- Last path segment, with JS `path.split('/').pop() || "unknown"`
semantics: the piece after the final `/`, or `"unknown"` when it is empty. -/
def lastPathSegment (path : Chars) : Chars :=
  let seg := (path.reverse.takeWhile (fun c => !(c == '/'))).reverse
  if seg.isEmpty then "unknown".toList else seg

/-- Delete every occurrence of the non-empty pattern `p :: ps`
(JS `replace(pat, '')` with the global flag). -/
def removeAllOcc (p : Char) (ps : Chars) : Chars → Chars
  | [] => []
  | c :: rest =>
    if (p :: ps).isPrefixOf (c :: rest) then
      removeAllOcc p ps ((c :: rest).drop (ps.length + 1))
    else c :: removeAllOcc p ps rest
termination_by l => l.length
decreasing_by
  all_goals simp only [List.length_drop, List.length_cons]
  all_goals omega

/-- Model of `captionImage` (lines 585-615): on capability success, trim and strip the
`<|im_end|>` markers; on capability failure, recover locally with the
filename-derived fallback caption — the error is swallowed, never re-thrown. -/
def captionImageM (outcome : Except Chars Chars) (imagePath : Chars) : Chars :=
  match outcome with
  | .ok response => trimChars (removeAllOcc '<' "|im_end|>".toList (trimChars response))
  | .error _ => "Image file: ".toList ++ lastPathSegment imagePath

/-- Model of `name.replace(/\.pdf$/i, '')`: strip a case-insensitive `.pdf` suffix. -/
def stripPdfExt (name : Chars) : Chars :=
  if (toLowerChars name).reverse.take 4 = "fdp.".toList then name.take (name.length - 4)
  else name

/-- Model of `replace(/[_-]/g, ' ')`. -/
def undersToSpaces (s : Chars) : Chars :=
  s.map (fun c => if c == '_' || c == '-' then ' ' else c)

/-- The PDF `cleanName` (lines 643, 648, 652). -/
def cleanPdfName (name : Chars) : Chars := undersToSpaces (stripPdfExt name)

/-- Model of `generatePdfCaption` (lines 636-655) with `extractPdfText` modelled by
its returned text (`""` on extraction failure): use the extracted text when
longer than 20 characters, else the filename-derived caption.  JS
`extractedText && extractedText.length > 20` is equivalent to the length
test alone. -/
def generatePdfCaptionM (extracted : Chars) (file : SelectedFile) : Chars :=
  if 20 < extracted.length then
    "PDF: ".toList ++ cleanPdfName file.name ++ ". Content: ".toList ++ extracted
  else
    "PDF document: ".toList ++ cleanPdfName file.name

/-- Model of `name.replace(/\.[^.]+$/, '')`: strip the final extension when the name
ends in a dot followed by one or more non-dot characters. -/
def stripLastExt (name : Chars) : Chars :=
  let r := name.reverse
  let pre := r.takeWhile (fun c => !(c == '.'))
  if 0 < pre.length ∧ pre.length < r.length then (r.drop (pre.length + 1)).reverse
  else name

/-- The with-vision captioning loop (lines 730-776): one `captioning` report
and one caption per image in submission order; resizing and content-URI
resolution are modelled as identity on the URI (they only relocate the bytes
the capability reads); `createThumbnail` always returns `null` (lines
679-684). -/
def captionPhaseVision (env : IndexEnv) (images : List SelectedFile) :
    List ProcessingProgress × List CaptionedFile :=
  (images.enum.map (fun p => mkProgress .captioning (p.1 + 1) images.length),
   images.enum.map (fun p =>
     { file := p.2
       caption := captionImageM (env.captionOutcome p.1) p.2.uri
       thumbnail := none }))

/-- The no-vision captioning loop (lines 780-804): filename-derived
captions. -/
def captionPhaseNoVision (images : List SelectedFile) :
    List ProcessingProgress × List CaptionedFile :=
  (images.enum.map (fun p => mkProgress .captioning (p.1 + 1) images.length),
   images.map (fun f =>
     { file := f
       caption := "Image: ".toList ++ undersToSpaces (stripLastExt f.name)
       thumbnail := none }))

/-- The PDF loop (lines 810-832): counters run from `images.length + i + 1`
out of the whole batch size. -/
def pdfPhase (env : IndexEnv) (imagesLen totalFiles : Nat) (pdfs : List SelectedFile) :
    List ProcessingProgress × List CaptionedFile :=
  (pdfs.enum.map (fun p => mkProgress .captioning (imagesLen + p.1 + 1) totalFiles),
   pdfs.enum.map (fun p =>
     { file := p.2
       caption := generatePdfCaptionM (env.pdfText p.1) p.2
       thumbnail := none }))

/-- Phases 1-2 of `indexFiles`: images (vision or filename captions), then
PDFs.  Returns the state (reports/models advanced) and the combined
captioned list. -/
def captionStage (env : IndexEnv) (files : List SelectedFile) (st0 : EngineState) :
    EngineState × List CaptionedFile :=
  let images := files.filter (fun f => f.type == FileType.image)
  let pdfs := files.filter (fun f => f.type == FileType.pdf)
  let phase1 : EngineState × List CaptionedFile :=
    if images.isEmpty then (st0, [])
    else if env.useVision then
      let stA := if st0.embeddingModel then unloadEmbeddingModelM st0 else st0
      let stB := loadVisionModelM env stA
      let pc := captionPhaseVision env images
      let stC := { stB with reports := stB.reports ++ pc.1 }
      (unloadVisionModelM stC, pc.2)
    else
      let pc := captionPhaseNoVision images
      ({ st0 with reports := st0.reports ++ pc.1 }, pc.2)
  let pp := pdfPhase env images.length files.length pdfs
  ({ phase1.1 with reports := phase1.1.reports ++ pp.1 }, phase1.2 ++ pp.2)

/-- The embedding loop (lines 841-861), started at item index `i`: one
`embedding` report per attempted item; an `embed` failure stops the loop and
propagates the error (batch-fatal, unlike captioning). -/
def embedPhase (env : IndexEnv) : Nat → List CaptionedFile →
    List ProcessingProgress × Except Chars (List EmbeddedFile)
  | _, [] => ([], Except.ok [])
  | i, c :: rest =>
    let rep := mkProgress .embedding (i + 1) (i + 1 + rest.length)
    match env.embedOutcome i with
    | .error e => ([rep], Except.error e)
    | .ok v =>
      let tail := embedPhase env (i + 1) rest
      (rep :: tail.1,
       match tail.2 with
       | .error e => Except.error e
       | .ok es => Except.ok
          ({ file := c.file, caption := c.caption, thumbnail := c.thumbnail,
             embedding := v } :: es))

/-- The save loop (lines 868-878): `saveFileToDatabase` appends the `files`
row and its `file_vectors` row as one logical unit per item (ids continue
the AUTOINCREMENT sequence; timestamps elided), then a `saving` report. -/
def savePhase (total : Nat) : Nat → List EmbeddedFile → List FileRow →
    List ProcessingProgress × List FileRow
  | _, [], db => ([], db)
  | i, e :: rest, db =>
    let row : FileRow :=
      { id := db.length + 1
        uri := e.file.uri
        filename := e.file.name
        file_type := e.file.type
        caption := e.caption
        thumbnail := e.thumbnail
        created_at := 0
        embedding := e.embedding }
    let tail := savePhase total (i + 1) rest (db ++ [row])
    (mkProgress .saving (i + 1) total :: tail.1, tail.2)

/-- Model of `indexFiles` (lines 697-898): caption, extract, embed, save, complete;
any error thrown inside the `try` (embedding failure in this model, the only
throwing step whose failure a claim concerns) reports phase `error`, unloads
both models and re-raises to the caller. -/
def indexFiles (env : IndexEnv) (files : List SelectedFile) (st0 : EngineState) :
    EngineState × Except Chars Unit :=
  let cs := captionStage env files st0
  let st3 := loadEmbeddingModelM env cs.1
  let ep := embedPhase env 0 cs.2
  let st4 := { st3 with reports := st3.reports ++ ep.1 }
  match ep.2 with
  | .error e =>
    let st5 := { st4 with reports := st4.reports ++ [mkProgress .error 0 0] }
    (unloadEmbeddingModelM (unloadVisionModelM st5), Except.error e)
  | .ok embedded =>
    let sp := savePhase embedded.length 0 embedded st4.db
    let st5 := { st4 with
      reports := st4.reports ++ [mkProgress .saving 0 embedded.length] ++ sp.1
      db := sp.2 }
    ({ st5 with
      reports := st5.reports ++ [mkProgress .complete files.length files.length] },
     Except.ok ())

/-! ## Facts about the pipeline operations -/

theorem unloadVisionModelM_visionModel (st : EngineState) :
    (unloadVisionModelM st).visionModel = false := by
  by_cases h : st.visionModel <;> simp [unloadVisionModelM, h]

theorem unloadVisionModelM_embeddingModel (st : EngineState) :
    (unloadVisionModelM st).embeddingModel = st.embeddingModel := by
  by_cases h : st.visionModel <;> simp [unloadVisionModelM, h]

theorem unloadVisionModelM_db (st : EngineState) :
    (unloadVisionModelM st).db = st.db := by
  by_cases h : st.visionModel <;> simp [unloadVisionModelM, h]

theorem unloadVisionModelM_mtrace (st : EngineState) :
    (unloadVisionModelM st).mtrace
      = st.mtrace ++ (if st.visionModel then [(false, st.embeddingModel)] else []) := by
  by_cases h : st.visionModel <;> simp [unloadVisionModelM, h]

theorem unloadVisionModelM_reports_mem (st : EngineState) (r : ProcessingProgress)
    (h : r ∈ st.reports) : r ∈ (unloadVisionModelM st).reports := by
  by_cases hv : st.visionModel
  · simp [unloadVisionModelM, hv]
    exact Or.inl h
  · simp [unloadVisionModelM, hv]
    exact h

theorem unloadEmbeddingModelM_embeddingModel (st : EngineState) :
    (unloadEmbeddingModelM st).embeddingModel = false := by
  by_cases h : st.embeddingModel <;> simp [unloadEmbeddingModelM, h]

theorem unloadEmbeddingModelM_visionModel (st : EngineState) :
    (unloadEmbeddingModelM st).visionModel = st.visionModel := by
  by_cases h : st.embeddingModel <;> simp [unloadEmbeddingModelM, h]

theorem unloadEmbeddingModelM_db (st : EngineState) :
    (unloadEmbeddingModelM st).db = st.db := by
  by_cases h : st.embeddingModel <;> simp [unloadEmbeddingModelM, h]

theorem unloadEmbeddingModelM_reports (st : EngineState) :
    (unloadEmbeddingModelM st).reports = st.reports := by
  by_cases h : st.embeddingModel <;> simp [unloadEmbeddingModelM, h]

theorem unloadEmbeddingModelM_mtrace (st : EngineState) :
    (unloadEmbeddingModelM st).mtrace
      = st.mtrace ++ (if st.embeddingModel then [(st.visionModel, false)] else []) := by
  by_cases h : st.embeddingModel <;> simp [unloadEmbeddingModelM, h]

theorem loadVisionModelM_visionModel (env : IndexEnv) (st : EngineState) :
    (loadVisionModelM env st).visionModel = true := rfl

theorem loadVisionModelM_embeddingModel (env : IndexEnv) (st : EngineState) :
    (loadVisionModelM env st).embeddingModel = st.embeddingModel := rfl

theorem loadVisionModelM_db (env : IndexEnv) (st : EngineState) :
    (loadVisionModelM env st).db = st.db := rfl

theorem loadVisionModelM_mtrace (env : IndexEnv) (st : EngineState) :
    (loadVisionModelM env st).mtrace = st.mtrace ++ [(true, st.embeddingModel)] := rfl

theorem loadEmbeddingModelM_visionModel (env : IndexEnv) (st : EngineState) :
    (loadEmbeddingModelM env st).visionModel = st.visionModel := by
  by_cases h : st.embeddingModel <;> simp [loadEmbeddingModelM, h]

theorem loadEmbeddingModelM_embeddingModel (env : IndexEnv) (st : EngineState) :
    (loadEmbeddingModelM env st).embeddingModel = true := by
  by_cases h : st.embeddingModel <;> simp [loadEmbeddingModelM, h]

theorem loadEmbeddingModelM_db (env : IndexEnv) (st : EngineState) :
    (loadEmbeddingModelM env st).db = st.db := by
  by_cases h : st.embeddingModel <;> simp [loadEmbeddingModelM, h]

theorem loadEmbeddingModelM_mtrace (env : IndexEnv) (st : EngineState) :
    (loadEmbeddingModelM env st).mtrace
      = st.mtrace ++ (if st.embeddingModel then [] else [(st.visionModel, true)]) := by
  by_cases h : st.embeddingModel <;> simp [loadEmbeddingModelM, h]

theorem filter_type_partition (files : List SelectedFile) :
    (files.filter (fun f => f.type == FileType.image)).length
      + (files.filter (fun f => f.type == FileType.pdf)).length = files.length := by
  induction files with
  | nil => rfl
  | cons f fs ih =>
    cases h : f.type <;> simp [List.filter_cons, h] <;> omega

theorem captionStage_db (env : IndexEnv) (files : List SelectedFile) (st0 : EngineState) :
    (captionStage env files st0).1.db = st0.db := by
  unfold captionStage
  by_cases hi : (files.filter (fun f => f.type == FileType.image)).isEmpty
  · simp [hi]
  · by_cases hu : env.useVision
    · by_cases he : st0.embeddingModel <;>
        simp [hi, hu, he, unloadVisionModelM_db, loadVisionModelM_db,
          unloadEmbeddingModelM_db]
    · simp [hi, hu]

theorem captionStage_len (env : IndexEnv) (files : List SelectedFile) (st0 : EngineState) :
    (captionStage env files st0).2.length = files.length := by
  unfold captionStage
  have hpart := filter_type_partition files
  by_cases hi : (files.filter (fun f => f.type == FileType.image)).isEmpty
  · rw [List.isEmpty_iff] at hi
    rw [hi] at hpart
    simp at hpart
    simpa [hi, pdfPhase] using hpart
  · by_cases hu : env.useVision <;>
      simp [hi, hu, pdfPhase, captionPhaseVision, captionPhaseNoVision] <;> omega

theorem embedPhase_ok_of_all_ok (env : IndexEnv)
    (hok : ∀ j, (env.embedOutcome j).isOk = true) :
    ∀ (i : Nat) (items : List CaptionedFile),
      ∃ es, (embedPhase env i items).2 = Except.ok es ∧ es.length = items.length := by
  intro i items
  induction items generalizing i with
  | nil => exact ⟨[], rfl, rfl⟩
  | cons c rest ih =>
    rcases h : env.embedOutcome i with e | v
    · have hbad := hok i
      rw [h] at hbad
      simp [Except.isOk, Except.toBool] at hbad
    · obtain ⟨es, hes, hlen⟩ := ih (i + 1)
      exact ⟨EmbeddedFile.mk c.file c.caption c.thumbnail v :: es,
        by simp [embedPhase, h, hes], by simp [hlen]⟩

theorem embedPhase_error_of_bad (env : IndexEnv) :
    ∀ (i j : Nat) (items : List CaptionedFile), j < items.length →
      (env.embedOutcome (i + j)).isOk = false →
      ∃ e, (embedPhase env i items).2 = Except.error e := by
  intro i j items
  induction items generalizing i j with
  | nil =>
    intro hj
    simp at hj
  | cons c rest ih =>
    intro hj hbad
    rcases h : env.embedOutcome i with e | v
    · exact ⟨e, by simp [embedPhase, h]⟩
    · cases j with
      | zero =>
        rw [Nat.add_zero, h] at hbad
        simp [Except.isOk, Except.toBool] at hbad
      | succ j2 =>
        have hbad2 : (env.embedOutcome (i + 1 + j2)).isOk = false := by
          rwa [show i + 1 + j2 = i + (j2 + 1) by omega]
        obtain ⟨e, he⟩ := ih (i + 1) j2 (by simpa using hj) hbad2
        exact ⟨e, by simp [embedPhase, h, he]⟩

theorem savePhase_db_length (total : Nat) :
    ∀ (i : Nat) (items : List EmbeddedFile) (db : List FileRow),
      (savePhase total i items db).2.length = db.length + items.length := by
  intro i items
  induction items generalizing i with
  | nil => intro db; simp [savePhase]
  | cons e rest ih =>
    intro db
    simp only [savePhase]
    rw [ih (i + 1)]
    simp
    omega

/-- C3: if embedding generation fails for any item of the batch, `indexFiles`
aborts the whole batch after cleanup: the error is re-raised to the caller,
an `error` phase report is emitted, both model handles end unset, and the
database is exactly as before — no FileRecord or VectorRow of any item of
the batch is persisted, because persistence runs only after every embedding
in the batch has succeeded. -/
theorem claim3_embedding_failure_aborts (env : IndexEnv) (files : List SelectedFile)
    (st0 : EngineState) (j : Nat) (hj : j < files.length)
    (hbad : (env.embedOutcome j).isOk = false) :
    (∃ e, (indexFiles env files st0).2 = Except.error e)
      ∧ (indexFiles env files st0).1.db = st0.db
      ∧ (indexFiles env files st0).1.visionModel = false
      ∧ (indexFiles env files st0).1.embeddingModel = false
      ∧ ∃ r ∈ (indexFiles env files st0).1.reports, r.phase = ProcessingPhase.error := by
  have hlen := captionStage_len env files st0
  obtain ⟨e, he⟩ := embedPhase_error_of_bad env 0 j (captionStage env files st0).2
    (by rw [hlen]; exact hj) (by simpa using hbad)
  refine ⟨⟨e, ?_⟩, ?_, ?_, ?_, ?_⟩
  · simp [indexFiles, he]
  · simp [indexFiles, he, unloadEmbeddingModelM_db, unloadVisionModelM_db,
      loadEmbeddingModelM_db, captionStage_db]
  · simp [indexFiles, he, unloadEmbeddingModelM_visionModel, unloadVisionModelM_visionModel]
  · simp [indexFiles, he, unloadEmbeddingModelM_embeddingModel]
  · refine ⟨mkProgress .error 0 0, ?_, rfl⟩
    simp only [indexFiles, he]
    rw [unloadEmbeddingModelM_reports]
    apply unloadVisionModelM_reports_mem
    simp

theorem claim3_embedding_failure_aborts_witness :
    (1 : Nat) < 3
      ∧ ((∃ e, (indexFiles
          ⟨true, fun _ => Except.ok "a cat".toList, fun _ => [],
            fun j => if j = 1 then Except.error "embed fail".toList else Except.ok [(1 : ℝ)],
            [], []⟩
          [⟨"u1".toList, "a.jpg".toList, FileType.image, "image/jpeg".toList, 10⟩,
           ⟨"u2".toList, "b.jpg".toList, FileType.image, "image/jpeg".toList, 10⟩,
           ⟨"u3".toList, "c.jpg".toList, FileType.image, "image/jpeg".toList, 10⟩]
          ⟨false, false, [], [], []⟩).2 = Except.error e)
        ∧ (indexFiles
          ⟨true, fun _ => Except.ok "a cat".toList, fun _ => [],
            fun j => if j = 1 then Except.error "embed fail".toList else Except.ok [(1 : ℝ)],
            [], []⟩
          [⟨"u1".toList, "a.jpg".toList, FileType.image, "image/jpeg".toList, 10⟩,
           ⟨"u2".toList, "b.jpg".toList, FileType.image, "image/jpeg".toList, 10⟩,
           ⟨"u3".toList, "c.jpg".toList, FileType.image, "image/jpeg".toList, 10⟩]
          ⟨false, false, [], [], []⟩).1.db = ([] : List FileRow)
        ∧ (indexFiles
          ⟨true, fun _ => Except.ok "a cat".toList, fun _ => [],
            fun j => if j = 1 then Except.error "embed fail".toList else Except.ok [(1 : ℝ)],
            [], []⟩
          [⟨"u1".toList, "a.jpg".toList, FileType.image, "image/jpeg".toList, 10⟩,
           ⟨"u2".toList, "b.jpg".toList, FileType.image, "image/jpeg".toList, 10⟩,
           ⟨"u3".toList, "c.jpg".toList, FileType.image, "image/jpeg".toList, 10⟩]
          ⟨false, false, [], [], []⟩).1.visionModel = false
        ∧ (indexFiles
          ⟨true, fun _ => Except.ok "a cat".toList, fun _ => [],
            fun j => if j = 1 then Except.error "embed fail".toList else Except.ok [(1 : ℝ)],
            [], []⟩
          [⟨"u1".toList, "a.jpg".toList, FileType.image, "image/jpeg".toList, 10⟩,
           ⟨"u2".toList, "b.jpg".toList, FileType.image, "image/jpeg".toList, 10⟩,
           ⟨"u3".toList, "c.jpg".toList, FileType.image, "image/jpeg".toList, 10⟩]
          ⟨false, false, [], [], []⟩).1.embeddingModel = false
        ∧ ∃ r ∈ (indexFiles
          ⟨true, fun _ => Except.ok "a cat".toList, fun _ => [],
            fun j => if j = 1 then Except.error "embed fail".toList else Except.ok [(1 : ℝ)],
            [], []⟩
          [⟨"u1".toList, "a.jpg".toList, FileType.image, "image/jpeg".toList, 10⟩,
           ⟨"u2".toList, "b.jpg".toList, FileType.image, "image/jpeg".toList, 10⟩,
           ⟨"u3".toList, "c.jpg".toList, FileType.image, "image/jpeg".toList, 10⟩]
          ⟨false, false, [], [], []⟩).1.reports, r.phase = ProcessingPhase.error) := by
  refine ⟨by decide, ?_⟩
  have h := claim3_embedding_failure_aborts
    ⟨true, fun _ => Except.ok "a cat".toList, fun _ => [],
      fun j => if j = 1 then Except.error "embed fail".toList else Except.ok [(1 : ℝ)],
      [], []⟩
    [⟨"u1".toList, "a.jpg".toList, FileType.image, "image/jpeg".toList, 10⟩,
     ⟨"u2".toList, "b.jpg".toList, FileType.image, "image/jpeg".toList, 10⟩,
     ⟨"u3".toList, "c.jpg".toList, FileType.image, "image/jpeg".toList, 10⟩]
    ⟨false, false, [], [], []⟩ 1 (by decide) (by decide)
  exact h

/-- C7: a per-image captioning failure never aborts the batch: `captionImage`
recovers locally with the fallback caption `"Image file: " ++ last path
segment of the image path`, and (whatever the caption outcomes) the pipeline
completes successfully and persists one row per file — the failure is never
surfaced to the caller. -/
theorem claim7_caption_failure_item_scoped (env : IndexEnv) (files : List SelectedFile)
    (st0 : EngineState) (hok : ∀ j, (env.embedOutcome j).isOk = true) :
    (∀ e p, captionImageM (Except.error e) p
        = "Image file: ".toList ++ lastPathSegment p)
      ∧ (indexFiles env files st0).2 = Except.ok ()
      ∧ (indexFiles env files st0).1.db.length = st0.db.length + files.length := by
  obtain ⟨es, hes, hlen⟩ := embedPhase_ok_of_all_ok env hok 0 (captionStage env files st0).2
  refine ⟨fun e p => rfl, ?_, ?_⟩
  · simp [indexFiles, hes]
  · simp [indexFiles, hes, savePhase_db_length, loadEmbeddingModelM_db, captionStage_db,
      hlen, captionStage_len]

theorem claim7_caption_failure_item_scoped_witness :
    captionImageM (Except.error "vision crashed".toList) "/tmp/res/cat.jpg".toList
        = "Image file: ".toList ++ lastPathSegment "/tmp/res/cat.jpg".toList
      ∧ (indexFiles
          ⟨true, fun _ => Except.error "vision crashed".toList, fun _ => [],
            fun _ => Except.ok [(1 : ℝ)], [], []⟩
          [⟨"/tmp/res/cat.jpg".toList, "cat.jpg".toList, FileType.image,
            "image/jpeg".toList, 10⟩]
          ⟨false, false, [], [], []⟩).2 = Except.ok ()
      ∧ (indexFiles
          ⟨true, fun _ => Except.error "vision crashed".toList, fun _ => [],
            fun _ => Except.ok [(1 : ℝ)], [], []⟩
          [⟨"/tmp/res/cat.jpg".toList, "cat.jpg".toList, FileType.image,
            "image/jpeg".toList, 10⟩]
          ⟨false, false, [], [], []⟩).1.db.length = 0 + 1 := by
  have h := claim7_caption_failure_item_scoped
    ⟨true, fun _ => Except.error "vision crashed".toList, fun _ => [],
      fun _ => Except.ok [(1 : ℝ)], [], []⟩
    [⟨"/tmp/res/cat.jpg".toList, "cat.jpg".toList, FileType.image,
      "image/jpeg".toList, 10⟩]
    ⟨false, false, [], [], []⟩ (fun j => rfl)
  exact ⟨h.1 "vision crashed".toList "/tmp/res/cat.jpg".toList, h.2.1, h.2.2⟩

/-- C8 counterexample: an empty batch does NOT stay free of intermediate
phases: even with the embedder already resident (so no load occurs), the run
emits a `saving` report (total 0) before `complete`. -/
theorem claim8_counterexample :
    ((indexFiles
        ⟨true, fun _ => Except.error [], fun _ => [], fun _ => Except.error [], [], []⟩
        [] ⟨false, true, [], [], []⟩).1.reports.map (fun r => r.phase))
      = [ProcessingPhase.saving, ProcessingPhase.complete] := by
  rfl

/-- C8 amended: an empty batch completes successfully and performs no
captioning or embedding work and no vision-model activity, but it still
invokes the embedder load (reporting `loading_embedding` when the embedder
is not yet resident) and emits one `saving` snapshot with total 0 before
`complete`. -/
theorem claim8_amended (env : IndexEnv) (st0 : EngineState) :
    (indexFiles env [] st0).2 = Except.ok ()
      ∧ (indexFiles env [] st0).1.db = st0.db
      ∧ (indexFiles env [] st0).1.visionModel = st0.visionModel
      ∧ (indexFiles env [] st0).1.embeddingModel = true
      ∧ (indexFiles env [] st0).1.reports
        = st0.reports
          ++ (if st0.embeddingModel then []
              else [mkProgress .loading_embedding 0 1]
                ++ env.embedDl.map (fun p => mkProgress .loading_embedding p 100)
                ++ [mkProgress .loading_embedding 1 1])
          ++ [mkProgress .saving 0 0, mkProgress .complete 0 0] := by
  by_cases h : st0.embeddingModel <;>
    simp [indexFiles, captionStage, pdfPhase, embedPhase, savePhase,
      loadEmbeddingModelM, h]

/-- C5 counterexample: `loadEmbeddingModel` does not unload the vision model.
Loading the embedder while the captioner is resident — exactly what happens
when a search-driven embedder load interleaves with the pipeline vision phase —
completes with BOTH handles set, so the claimed mutual exclusion invariant is
false. -/
theorem claim5_counterexample :
    ((loadEmbeddingModelM
        ⟨true, fun _ => Except.error [], fun _ => [], fun _ => Except.error [], [], []⟩
        ⟨true, false, [], [], []⟩).visionModel = true)
      ∧ ((loadEmbeddingModelM
        ⟨true, fun _ => Except.error [], fun _ => [], fun _ => Except.error [], [], []⟩
        ⟨true, false, [], [], []⟩).embeddingModel = true) := by
  exact ⟨rfl, rfl⟩

/-- C5 amended: mutual exclusion holds only along the sequencing
of the pipeline itself: in a single non-interleaved `indexFiles` run started with the
vision handle unset, every model-residency snapshot taken after a
load/unload operation has at most one handle set (the pipeline unloads the
embedder before loading vision and unloads vision before loading the
embedder).  It is not a property of the load operations themselves:
`loadEmbeddingModel` leaves a resident vision model in place
(`claim5_counterexample`), so an embedder load interleaved with the vision
phase does violate it. -/
theorem claim5_amended (env : IndexEnv) (files : List SelectedFile) (st0 : EngineState)
    (h0 : st0.visionModel = false) (htr : st0.mtrace = []) :
    ∀ p ∈ (indexFiles env files st0).1.mtrace, ¬(p.1 = true ∧ p.2 = true) := by
  have hstage : ∀ q ∈ (captionStage env files st0).1.mtrace, ¬(q.1 = true ∧ q.2 = true) := by
    unfold captionStage
    by_cases hi : (files.filter (fun f => f.type == FileType.image)).isEmpty
    · simp [hi, htr]
    · by_cases hu : env.useVision
      · by_cases he : st0.embeddingModel <;>
          simp [hi, hu, he, unloadVisionModelM_mtrace, loadVisionModelM_mtrace,
            unloadEmbeddingModelM_mtrace, unloadVisionModelM_embeddingModel,
            loadVisionModelM_visionModel, loadVisionModelM_embeddingModel,
            unloadEmbeddingModelM_embeddingModel, unloadEmbeddingModelM_visionModel,
            htr, h0]
      · simp [hi, hu, htr]
  have hsvis : (captionStage env files st0).1.visionModel = false := by
    unfold captionStage
    by_cases hi : (files.filter (fun f => f.type == FileType.image)).isEmpty
    · simp [hi, h0]
    · by_cases hu : env.useVision
      · by_cases he : st0.embeddingModel <;>
          simp [hi, hu, he, unloadVisionModelM_visionModel]
      · simp [hi, hu, h0]
  intro p hp
  rcases hE : (embedPhase env 0 (captionStage env files st0).2).2 with e | es <;>
    rcases hq : (captionStage env files st0).1.embeddingModel <;>
    simp only [indexFiles, hE] at hp <;>
    simp [unloadEmbeddingModelM_mtrace, unloadVisionModelM_mtrace,
      unloadVisionModelM_visionModel, unloadVisionModelM_embeddingModel,
      loadEmbeddingModelM_mtrace, loadEmbeddingModelM_visionModel,
      loadEmbeddingModelM_embeddingModel, hsvis, hq] at hp
  all_goals
    first
    | exact hstage p hp
    | (rcases hp with hp | rfl
       exacts [hstage p hp, by simp])
    | (rcases hp with hp | rfl | rfl
       exacts [hstage p hp, by simp, by simp])

theorem claim5_amended_witness :
    (⟨false, false, [], [], []⟩ : EngineState).visionModel = false
      ∧ (⟨false, false, [], [], []⟩ : EngineState).mtrace = ([] : List (Bool × Bool))
      ∧ ∀ p ∈ (indexFiles
          ⟨true, fun _ => Except.ok "a cat".toList, fun _ => [],
            fun _ => Except.ok [(1 : ℝ)], [], []⟩
          [⟨"u1".toList, "a.jpg".toList, FileType.image, "image/jpeg".toList, 10⟩]
          ⟨false, false, [], [], []⟩).1.mtrace, ¬(p.1 = true ∧ p.2 = true) :=
  ⟨rfl, rfl, claim5_amended _ _ _ rfl rfl⟩

/-! ## Search coordinator: single-flight with latest-wins queue
(`search`, MemoryEngine.ts lines 951-985)

JavaScript is single-threaded with run-to-completion between `await`
suspension points, so the coordinator is a state machine whose events are an
arriving `search(query)` call and the completion of the in-flight
`executeSearch`.  Arriving calls are tagged with fresh ids (a ghost counter)
so individual callers and their promises can be tracked; `started`,
`settled` and `discarded` are ghost instrumentation. -/

/-- One caller of `search`, with its pending promise identified by `id`. -/
structure SCall where
  id : Nat
  query : Chars
deriving DecidableEq, Repr

/-- Coordinator state: `inFlight` mirrors `searchInProgress` (with the query
being executed), `slot` mirrors `searchQueue` — capacity one under the
clear-then-push discipline of lines 964-966. -/
structure SearchState where
  inFlight : Option SCall
  slot : Option SCall
  started : List SCall
  settled : List Nat
  discarded : List Nat
  nextId : Nat
deriving DecidableEq, Repr

inductive SEvent where
  | call (query : Chars)
  | finish
deriving DecidableEq, Repr

def initialSearchState : SearchState := ⟨none, none, [], [], [], 0⟩

/-- One step of the coordinator.  On `call`: a blank query resolves `[]` at
once (line 956, before the in-progress check); while a search is in flight
the call replaces whatever sits in the queue — the previously queued call is
discarded without being resolved or rejected (lines 961-967); otherwise the
call begins executing (lines 970-973).  On `finish`: the in-flight caller
promise settles (try/finally, lines 972-976), then the `finally` block
dequeues the newest queued call and re-enters `search` with its query,
chaining that run settlement to the queued caller promise (lines
978-983); a dequeued blank query resolves immediately. -/
def searchStep (st : SearchState) : SEvent → SearchState
  | .call q =>
    let c : SCall := ⟨st.nextId, q⟩
    if (trimChars q).isEmpty then
      { st with settled := st.settled ++ [c.id], nextId := st.nextId + 1 }
    else
      match st.inFlight with
      | none =>
        { st with
          inFlight := some c
          started := st.started ++ [c]
          nextId := st.nextId + 1 }
      | some _ =>
        { st with
          slot := some c
          discarded := st.discarded
            ++ (match st.slot with | some old => [old.id] | none => [])
          nextId := st.nextId + 1 }
  | .finish =>
    match st.inFlight with
    | none => st
    | some cur =>
      match st.slot with
      | none => { st with inFlight := none, settled := st.settled ++ [cur.id] }
      | some nxt =>
        if (trimChars nxt.query).isEmpty then
          { st with
            inFlight := none
            slot := none
            settled := st.settled ++ [cur.id, nxt.id] }
        else
          { st with
            inFlight := some nxt
            slot := none
            started := st.started ++ [nxt]
            settled := st.settled ++ [cur.id] }

def runSearch (evs : List SEvent) : SearchState :=
  evs.foldl searchStep initialSearchState

def startedIds (st : SearchState) : List Nat := st.started.map (fun c => c.id)

def idsAll (st : SearchState) : List Nat :=
  startedIds st ++ st.settled ++ st.discarded
    ++ (match st.slot with | some c => [c.id] | none => [])
    ++ (match st.inFlight with | some c => [c.id] | none => [])

/-- Reachability invariant of the coordinator under non-blank queries:
ghost ids are fresh (all below the counter), a discarded caller never
started and never settled, the queued caller has not started or settled or
been discarded, the in-flight call did start, every settled id started, and
queued queries are non-blank. -/
structure SearchInv (st : SearchState) : Prop where
  bound_started : ∀ c ∈ st.started, c.id < st.nextId
  bound_settled : ∀ i ∈ st.settled, i < st.nextId
  bound_discarded : ∀ i ∈ st.discarded, i < st.nextId
  bound_slot : ∀ c, st.slot = some c → c.id < st.nextId
  bound_inflight : ∀ c, st.inFlight = some c → c.id < st.nextId
  disc_not_started : ∀ i ∈ st.discarded, i ∉ startedIds st
  disc_not_settled : ∀ i ∈ st.discarded, i ∉ st.settled
  slot_fresh : ∀ c, st.slot = some c →
    c.id ∉ startedIds st ∧ c.id ∉ st.settled ∧ c.id ∉ st.discarded
  inflight_started : ∀ c, st.inFlight = some c → c.id ∈ startedIds st
  settled_started : ∀ i ∈ st.settled, i ∈ startedIds st
  slot_nonblank : ∀ c, st.slot = some c → (trimChars c.query).isEmpty = false

theorem initialSearchState_inv : SearchInv initialSearchState := by
  constructor <;> simp [initialSearchState, startedIds]

theorem searchStep_inv (st : SearchState) (e : SEvent) (h : SearchInv st)
    (hnb : ∀ q, e = SEvent.call q → (trimChars q).isEmpty = false) :
    SearchInv (searchStep st e) := by
  cases e with
  | call q =>
    have hb : (trimChars q).isEmpty = false := hnb q rfl
    cases hin : st.inFlight with
    | none =>
      have hstep : searchStep st (SEvent.call q)
          = { st with
              inFlight := some ⟨st.nextId, q⟩
              started := st.started ++ [⟨st.nextId, q⟩]
              nextId := st.nextId + 1 } := by
        simp [searchStep, hb, hin]
      rw [hstep]
      constructor
      · intro c hc
        simp at hc
        rcases hc with hc | rfl
        · exact Nat.lt_succ_of_lt (h.bound_started c hc)
        · simp
      · intro i hi
        exact Nat.lt_succ_of_lt (h.bound_settled i hi)
      · intro i hi
        exact Nat.lt_succ_of_lt (h.bound_discarded i hi)
      · intro c hc
        exact Nat.lt_succ_of_lt (h.bound_slot c hc)
      · intro c hc
        simp at hc
        subst hc
        simp
      · intro i hi
        have h1 := h.disc_not_started i hi
        have h2 := h.bound_discarded i hi
        simp [startedIds] at h1 ⊢
        refine ⟨h1, ?_⟩
        omega
      · intro i hi
        exact h.disc_not_settled i hi
      · intro c hc
        obtain ⟨h1, h2, h3⟩ := h.slot_fresh c hc
        have h4 := h.bound_slot c hc
        simp [startedIds] at h1 ⊢
        exact ⟨⟨h1, by omega⟩, h2, h3⟩
      · intro c hc
        simp at hc
        subst hc
        simp [startedIds]
      · intro i hi
        have := h.settled_started i hi
        simp [startedIds] at this ⊢
        exact Or.inl this
      · intro c hc
        exact h.slot_nonblank c hc
    | some cur =>
      cases hs : st.slot with
      | none =>
        have hstep : searchStep st (SEvent.call q)
            = { st with
                slot := some ⟨st.nextId, q⟩
                nextId := st.nextId + 1 } := by
          simp [searchStep, hb, hin, hs]
        rw [hstep]
        constructor
        · intro c hc
          exact Nat.lt_succ_of_lt (h.bound_started c hc)
        · intro i hi
          exact Nat.lt_succ_of_lt (h.bound_settled i hi)
        · intro i hi
          exact Nat.lt_succ_of_lt (h.bound_discarded i hi)
        · intro c hc
          simp at hc
          subst hc
          simp
        · intro c hc
          simp at hc ⊢
          exact Nat.lt_succ_of_lt (h.bound_inflight c hc)
        · intro i hi
          exact h.disc_not_started i hi
        · intro i hi
          exact h.disc_not_settled i hi
        · intro c hc
          simp at hc
          subst hc
          simp only [startedIds]
          refine ⟨?_, ?_, ?_⟩
          · intro hmem
            simp [startedIds] at hmem
            obtain ⟨d, hd, hdid⟩ := hmem
            have := h.bound_started d hd
            omega
          · intro hmem
            have := h.bound_settled _ hmem
            simp at this
          · intro hmem
            have := h.bound_discarded _ hmem
            simp at this
        · intro c hc
          exact h.inflight_started c (hin ▸ hc)
        · intro i hi
          exact h.settled_started i hi
        · intro c hc
          simp at hc
          subst hc
          exact hb
      | some old =>
        have hstep : searchStep st (SEvent.call q)
            = { st with
                slot := some ⟨st.nextId, q⟩
                discarded := st.discarded ++ [old.id]
                nextId := st.nextId + 1 } := by
          simp [searchStep, hb, hin, hs]
        rw [hstep]
        constructor
        · intro c hc
          exact Nat.lt_succ_of_lt (h.bound_started c hc)
        · intro i hi
          exact Nat.lt_succ_of_lt (h.bound_settled i hi)
        · intro i hi
          simp at hi
          rcases hi with hi | rfl
          · exact Nat.lt_succ_of_lt (h.bound_discarded i hi)
          · exact Nat.lt_succ_of_lt (h.bound_slot old hs)
        · intro c hc
          simp at hc
          subst hc
          simp
        · intro c hc
          simp at hc ⊢
          exact Nat.lt_succ_of_lt (h.bound_inflight c hc)
        · intro i hi
          simp at hi
          rcases hi with hi | rfl
          · exact h.disc_not_started i hi
          · exact (h.slot_fresh old hs).1
        · intro i hi
          simp at hi
          rcases hi with hi | rfl
          · exact h.disc_not_settled i hi
          · exact (h.slot_fresh old hs).2.1
        · intro c hc
          simp at hc
          subst hc
          simp only [startedIds]
          refine ⟨?_, ?_, ?_⟩
          · intro hmem
            simp [startedIds] at hmem
            obtain ⟨d, hd, hdid⟩ := hmem
            have := h.bound_started d hd
            omega
          · intro hmem
            have := h.bound_settled _ hmem
            simp at this
          · intro hmem
            simp at hmem
            rcases hmem with hmem | hmem
            · have := h.bound_discarded _ hmem
              simp at this
            · have := h.bound_slot old hs
              omega
        · intro c hc
          exact h.inflight_started c (hin ▸ hc)
        · intro i hi
          exact h.settled_started i hi
        · intro c hc
          simp at hc
          subst hc
          exact hb
  | finish =>
    cases hin : st.inFlight with
    | none =>
      have hstep : searchStep st SEvent.finish = st := by
        simp [searchStep, hin]
      rw [hstep]
      exact h
    | some cur =>
      cases hs : st.slot with
      | none =>
        have hstep : searchStep st SEvent.finish
            = { st with
                inFlight := none
                settled := st.settled ++ [cur.id] } := by
          simp [searchStep, hin, hs]
        rw [hstep]
        constructor
        · intro c hc
          exact h.bound_started c hc
        · intro i hi
          simp at hi
          rcases hi with hi | rfl
          · exact h.bound_settled i hi
          · exact h.bound_inflight cur hin
        · intro i hi
          exact h.bound_discarded i hi
        · intro c hc
          simp [hs] at hc
        · intro c hc
          simp at hc
        · intro i hi
          exact h.disc_not_started i hi
        · intro i hi
          simp
          refine ⟨h.disc_not_settled i hi, ?_⟩
          intro heq
          subst heq
          exact (h.disc_not_started _ hi) (h.inflight_started cur hin)
        · intro c hc
          simp [hs] at hc
        · intro c hc
          simp at hc
        · intro i hi
          simp at hi
          rcases hi with hi | rfl
          · exact h.settled_started i hi
          · exact h.inflight_started cur hin
        · intro c hc
          simp [hs] at hc
      | some nxt =>
        have hnb2 : (trimChars nxt.query).isEmpty = false := h.slot_nonblank nxt hs
        have hstep : searchStep st SEvent.finish
            = { st with
                inFlight := some nxt
                slot := none
                started := st.started ++ [nxt]
                settled := st.settled ++ [cur.id] } := by
          simp [searchStep, hin, hs, hnb2]
        rw [hstep]
        constructor
        · intro c hc
          simp at hc
          rcases hc with hc | rfl
          · exact h.bound_started c hc
          · exact h.bound_slot c hs
        · intro i hi
          simp at hi
          rcases hi with hi | rfl
          · exact h.bound_settled i hi
          · exact h.bound_inflight cur hin
        · intro i hi
          exact h.bound_discarded i hi
        · intro c hc
          simp at hc
        · intro c hc
          simp at hc
          subst hc
          exact h.bound_slot _ hs
        · intro i hi
          have h1 := h.disc_not_started i hi
          simp [startedIds] at h1 ⊢
          refine ⟨h1, ?_⟩
          intro heq
          subst heq
          exact (h.slot_fresh nxt hs).2.2 hi
        · intro i hi
          simp
          refine ⟨h.disc_not_settled i hi, ?_⟩
          intro heq
          subst heq
          exact (h.disc_not_started _ hi) (h.inflight_started cur hin)
        · intro c hc
          simp at hc
        · intro c hc
          simp at hc
          subst hc
          simp [startedIds]
        · intro i hi
          simp at hi
          simp [startedIds] at hi ⊢
          rcases hi with hi | rfl
          · exact Or.inl (by simpa [startedIds] using h.settled_started i hi)
          · exact Or.inl (by simpa [startedIds] using h.inflight_started cur hin)
        · intro c hc
          simp at hc

theorem searchRun_inv_aux :
    ∀ (evs : List SEvent) (st : SearchState), SearchInv st →
      (∀ q, SEvent.call q ∈ evs → (trimChars q).isEmpty = false) →
      SearchInv (evs.foldl searchStep st) := by
  intro evs
  induction evs with
  | nil =>
    intro st h _
    exact h
  | cons e rest ih =>
    intro st h hnb
    apply ih
    · exact searchStep_inv st e h
        (fun q he => hnb q (by rw [he]; exact List.mem_cons_self _ _))
    · intro q hq
      exact hnb q (List.mem_cons_of_mem _ hq)

theorem searchRun_inv (evs : List SEvent)
    (hnb : ∀ q, SEvent.call q ∈ evs → (trimChars q).isEmpty = false) :
    SearchInv (runSearch evs) :=
  searchRun_inv_aux evs initialSearchState initialSearchState_inv hnb

/-- C4: `search` is single-flight with a latest-wins queue: (i) while a query
is in flight an arriving call never begins executing; (ii) it is instead
placed in the capacity-1 slot, and any call already waiting there is moved to
the discarded set; (iii) when the in-flight query completes, exactly the
newest queued call becomes the next in-flight query; (iv) along every event
trace of non-blank queries, a discarded (superseded) call never executes. -/
theorem claim4_single_flight_latest_wins :
    (∀ (st : SearchState) (c : SCall) (q : Chars), st.inFlight = some c →
        (searchStep st (SEvent.call q)).started = st.started)
      ∧ (∀ (st : SearchState) (c old : SCall) (q : Chars), st.inFlight = some c →
          (trimChars q).isEmpty = false → st.slot = some old →
          (searchStep st (SEvent.call q)).slot = some ⟨st.nextId, q⟩
            ∧ old.id ∈ (searchStep st (SEvent.call q)).discarded)
      ∧ (∀ (st : SearchState) (cur nxt : SCall), st.inFlight = some cur →
          st.slot = some nxt → (trimChars nxt.query).isEmpty = false →
          (searchStep st SEvent.finish).inFlight = some nxt
            ∧ (searchStep st SEvent.finish).started = st.started ++ [nxt])
      ∧ (∀ (evs : List SEvent),
          (∀ q, SEvent.call q ∈ evs → (trimChars q).isEmpty = false) →
          ∀ i ∈ (runSearch evs).discarded, i ∉ startedIds (runSearch evs)) := by
  refine ⟨?_, ?_, ?_, ?_⟩
  · intro st c q hin
    by_cases hb : (trimChars q).isEmpty
    · simp [searchStep, hb]
    · simp only [Bool.not_eq_true] at hb
      simp [searchStep, hb, hin]
  · intro st c old q hin hb hs
    simp [searchStep, hb, hin, hs]
  · intro st cur nxt hin hs hb
    simp [searchStep, hin, hs, hb]
  · intro evs hnb
    exact (searchRun_inv evs hnb).disc_not_started

theorem claim4_single_flight_latest_wins_witness :
    (searchStep ⟨some ⟨0, "cat".toList⟩, some ⟨1, "dog".toList⟩,
        [⟨0, "cat".toList⟩], [], [], 2⟩ (SEvent.call "cat".toList)).started
        = [⟨0, "cat".toList⟩]
      ∧ (searchStep ⟨some ⟨0, "cat".toList⟩, some ⟨1, "dog".toList⟩,
          [⟨0, "cat".toList⟩], [], [], 2⟩ (SEvent.call "cat".toList)).slot
        = some ⟨2, "cat".toList⟩
      ∧ (1 : Nat) ∈ (searchStep ⟨some ⟨0, "cat".toList⟩, some ⟨1, "dog".toList⟩,
          [⟨0, "cat".toList⟩], [], [], 2⟩ (SEvent.call "cat".toList)).discarded
      ∧ (searchStep ⟨some ⟨0, "cat".toList⟩, some ⟨2, "cat".toList⟩,
          [⟨0, "cat".toList⟩], [], [1], 3⟩ SEvent.finish).inFlight
        = some ⟨2, "cat".toList⟩
      ∧ ∀ i ∈ (runSearch [SEvent.call "cat".toList, SEvent.call "dog".toList,
            SEvent.call "cat".toList, SEvent.finish, SEvent.finish]).discarded,
          i ∉ startedIds (runSearch [SEvent.call "cat".toList, SEvent.call "dog".toList,
            SEvent.call "cat".toList, SEvent.finish, SEvent.finish]) := by
  refine ⟨?_, ?_, ?_, ?_, ?_⟩
  · exact claim4_single_flight_latest_wins.1 _ ⟨0, "cat".toList⟩ _ rfl
  · exact (claim4_single_flight_latest_wins.2.1 _ ⟨0, "cat".toList⟩ ⟨1, "dog".toList⟩ _
      rfl (by decide) rfl).1
  · exact (claim4_single_flight_latest_wins.2.1 _ ⟨0, "cat".toList⟩ ⟨1, "dog".toList⟩ _
      rfl (by decide) rfl).2
  · exact (claim4_single_flight_latest_wins.2.2.1 _ ⟨0, "cat".toList⟩ ⟨2, "cat".toList⟩
      rfl rfl (by decide)).1
  · apply claim4_single_flight_latest_wins.2.2.2
    intro q hq
    simp at hq
    rcases hq with rfl | rfl | rfl <;> decide

/-- C10: a queued search overwritten by a newer call under the latest-wins
discipline is never settled — the superseded caller promise is neither
resolved nor rejected in any reachable state (its `await` never completes);
and every promise that does settle belongs to a call whose query actually
began executing, so only the surviving queued query is settled after the
in-flight query finishes. -/
theorem claim10_superseded_never_settled (evs : List SEvent)
    (hnb : ∀ q, SEvent.call q ∈ evs → (trimChars q).isEmpty = false) :
    (∀ i ∈ (runSearch evs).discarded, i ∉ (runSearch evs).settled)
      ∧ (∀ i ∈ (runSearch evs).settled, i ∈ startedIds (runSearch evs)) := by
  have h := searchRun_inv evs hnb
  exact ⟨h.disc_not_settled, h.settled_started⟩

theorem claim10_superseded_never_settled_witness :
    (∀ i ∈ (runSearch [SEvent.call "cat".toList, SEvent.call "dog".toList,
        SEvent.call "cat".toList, SEvent.finish, SEvent.finish]).discarded,
      i ∉ (runSearch [SEvent.call "cat".toList, SEvent.call "dog".toList,
        SEvent.call "cat".toList, SEvent.finish, SEvent.finish]).settled)
      ∧ (∀ i ∈ (runSearch [SEvent.call "cat".toList, SEvent.call "dog".toList,
          SEvent.call "cat".toList, SEvent.finish, SEvent.finish]).settled,
        i ∈ startedIds (runSearch [SEvent.call "cat".toList, SEvent.call "dog".toList,
          SEvent.call "cat".toList, SEvent.finish, SEvent.finish])) := by
  apply claim10_superseded_never_settled
  intro q hq
  simp at hq
  rcases hq with rfl | rfl | rfl <;> decide

/-! ## `loadEmbeddingModel` under overlapping calls (lines 516-569)

JavaScript runs the synchronous prefix of each call to completion, so the guards
at the head of `loadEmbeddingModel` observe the instance fields only as they
are at `await` suspension points.  The async block started at line 533
assigns `this.embeddingModel = new CactusLM(...)` (line 537) synchronously,
BEFORE its first `await` (`download`, line 543), and `init()` (line 555)
completes only later. -/

/-- The fields the `loadEmbeddingModel` guards read, as observable at an
`await` suspension point: `this.embeddingModel !== null`, whether that
instance has completed `init()`, `this.embeddingModelLoading`, and
`this.embeddingModelLoadPromise !== null`. -/
structure EmbedLoadObs where
  handleSet : Bool
  initDone : Bool
  loading : Bool
  promiseSet : Bool
deriving DecidableEq, Repr

/-- What a `loadEmbeddingModel` call does, per the guards of lines 517-528. -/
inductive LoadCallOutcome where
  | returnsAtOnce (observedInitDone : Bool)
  | awaitsInFlight
  | startsLoad
deriving DecidableEq, Repr

/-- The guard structure of `loadEmbeddingModel` (lines 517-531): return at
once when the handle is set; else await the in-flight promise when one is
loading; else start a fresh load. -/
def loadEmbedCallBehavior (s : EmbedLoadObs) : LoadCallOutcome :=
  if s.handleSet then .returnsAtOnce s.initDone
  else if s.loading && s.promiseSet then .awaitsInFlight
  else .startsLoad

/-- The observable states at the `await` suspension points of one load:
idle before any load; suspended inside `download()`/`init()` (handle already
set — line 537 runs before the first `await` — but `init` not complete;
`loading` and the promise set); load complete; after a failed load (handle
cleared by the catch at line 561, `loading` cleared by the finally at line
564, the promise left set).  No suspension point has `loading = true` with
the handle unset. -/
def embedLoadYieldStates : List EmbedLoadObs :=
  [⟨false, false, false, false⟩,
   ⟨true, false, true, true⟩,
   ⟨true, true, false, true⟩,
   ⟨false, false, false, true⟩]

/-- C6 fails on the code: a second `loadEmbeddingModel` call that overlaps an
in-flight load observes the handle already set (it is assigned before the
first `await`) and takes the line-518 early return, coming back immediately
with an instance whose `init()` has NOT completed — it neither awaits the
in-flight load nor observes a fully-initialized instance, contradicting the
inline documentation of lines 517 and 523; the line-524 wait branch is
unreachable from every suspension point. -/
theorem claim6_second_call_returns_uninitialized :
    loadEmbedCallBehavior ⟨true, false, true, true⟩
        = LoadCallOutcome.returnsAtOnce false
      ∧ (∀ s ∈ embedLoadYieldStates,
          loadEmbedCallBehavior s ≠ LoadCallOutcome.awaitsInFlight) := by
  exact ⟨rfl, by decide⟩

theorem claim6_second_call_returns_uninitialized_witness :
    loadEmbedCallBehavior ⟨true, false, true, true⟩ ≠ LoadCallOutcome.awaitsInFlight :=
  claim6_second_call_returns_uninitialized.2 ⟨true, false, true, true⟩ (by decide)

end Recall
